import Mathlib

set_option maxRecDepth 4000

/-!
Shallow embedding of the medaCy sequence-tagging core
(`src/medacy/ner/learners/bilstm_crf.py` and
`src/medacy/ner/model/pytorch_model.py`).

Python dictionaries are modelled as association lists in insertion order
(`PyDict`), Python exceptions as an explicit `PyError` value returned through
`Except`, and the stream of `random.randrange` results consumed by
`BiLstmCrfLearner.vectorize` as an explicit list of naturals.  Floating-point
tensor arithmetic inside the LSTM network is not modelled: the trained network
is carried around as an opaque function value, and the training loop is
modelled by its control flow (which values are indexed, which denominators are
divided by) plus an explicit event trace for the gradient discipline.
-/

/-- Python exception kinds that the embedded code can raise. -/
inductive PyError
  | typeError
  | valueError
  | keyError
  | indexError
  | runtimeError
  | zeroDivisionError
  | nameError
  deriving DecidableEq

/-- A Python `dict`, modelled as an association list in insertion order.
Keys are unique by construction (inserts replace in place). -/
abbrev PyDict (α β : Type) := List (α × β)

/-- `k in d` for a Python dict. -/
def dictContains {α β : Type} [DecidableEq α] (d : PyDict α β) (k : α) : Bool :=
  d.any (fun p => decide (p.1 = k))

/-- `d[k]` for a Python dict, `none` when the key is absent (`KeyError`). -/
def dictGet? {α β : Type} [DecidableEq α] (d : PyDict α β) (k : α) : Option β :=
  (d.find? (fun p => decide (p.1 = k))).map Prod.snd

/-- `d[k] = v` for a Python dict: replaces in place when the key exists,
appends at the end otherwise. -/
def dictInsert {α β : Type} [DecidableEq α] (d : PyDict α β) (k : α) (v : β) : PyDict α β :=
  if dictContains d k then d.map (fun p => if p.1 = k then (k, v) else p)
  else d ++ [(k, v)]

/-- One iteration of the body of `create_index_dictionary` (and of the
`word_to_index` loop in `PytorchModel.get_training_data`):
`if item not in to_index: to_index[item] = len(to_index)`. -/
def indexStep {α : Type} [DecidableEq α] (d : PyDict α Nat) (item : α) : PyDict α Nat :=
  if dictContains d item then d else dictInsert d item d.length

/-- `BiLstmCrfLearner.create_index_dictionary` (bilstm_crf.py lines 55-61):
first-seen insertion of every item of every sequence, value = current length. -/
def BiLstmCrfLearner.create_index_dictionary {α : Type} [DecidableEq α]
    (sequences : List (List α)) : PyDict α Nat :=
  sequences.foldl (fun to_index sequence => sequence.foldl indexStep to_index) []

/-- The list of first occurrences of a list, in order of first occurrence.
Used as the independent yardstick for the "first-seen order" part of the
indexer contract. -/
def firstSeen {α : Type} [DecidableEq α] : List α → List α
  | [] => []
  | x :: xs => x :: (firstSeen xs).filter (fun y => decide (y ≠ x))

/-- `SEGMENT_SIZE` (pytorch_model.py line 13). -/
def SEGMENT_SIZE : Nat := 100

/-- `PytorchModel.get_segments` (pytorch_model.py lines 63-69):
`for i in range(0, len(source), SEGMENT_SIZE): segments.append(source[i:i+SEGMENT_SIZE])`.
Python `range(0, n, W)` (with `W = 100 > 0`) enumerates the
`(n + W - 1) / W` indices `0, W, 2*W, ...` that are `< n`, and the slice
`source[i:i+W]` is `(source.drop i).take W`. -/
def PytorchModel.get_segments {α : Type} (source : List α) : List (List α) :=
  (List.range' 0 ((source.length + SEGMENT_SIZE - 1) / SEGMENT_SIZE) SEGMENT_SIZE).map
    (fun i => (source.drop i).take SEGMENT_SIZE)

/-- `BiLstmCrfLearner.vectorize` (bilstm_crf.py lines 63-73).  An in-vocabulary
item is looked up in the dict; an out-of-vocabulary item consumes the next
value of the `random.randrange(len(to_index))` draw stream `rng`. -/
def BiLstmCrfLearner.vectorize {α : Type} [DecidableEq α]
    (sequence : List α) (to_index : PyDict α Nat) (rng : List Nat) : List Nat :=
  match sequence with
  | [] => []
  | item :: rest =>
    if dictContains to_index item then
      (dictGet? to_index item).getD 0 :: BiLstmCrfLearner.vectorize rest to_index rng
    else
      rng.headD 0 :: BiLstmCrfLearner.vectorize rest to_index rng.tail

/-- `PytorchModel.vectorize` (pytorch_model.py lines 48-50):
`[to_index[w] for w in sequence]`; a missing key raises `KeyError`. -/
def PytorchModel.vectorize {α : Type} [DecidableEq α]
    (sequence : List α) (to_index : PyDict α Nat) : Except PyError (List Nat) :=
  sequence.mapM (fun w =>
    match dictGet? to_index w with
    | some i => Except.ok i
    | none => Except.error PyError.keyError)

/-- Python `max(vector)` over a list of scores: raises `ValueError` on an
empty sequence, otherwise folds binary `max` over the elements. -/
def pyMax (l : List Int) : Except PyError Int :=
  match l with
  | [] => Except.error PyError.valueError
  | x :: xs => Except.ok (xs.foldl max x)

/-- Python `list(vector).index(v)`: index of the first occurrence of `v`
(only ever called on a value known to be present). -/
def pyListIndex (l : List Int) (v : Int) : Nat :=
  match l with
  | [] => 0
  | x :: xs => if x = v then 0 else pyListIndex xs v + 1

/-- The inverted dict `{y: x for x, y in to_index.items()}` built at the top
of `devectorize_tags` / `devectorize`. -/
def invertIndex {α : Type} [DecidableEq α] (to_index : PyDict α Nat) : PyDict Nat α :=
  to_index.foldl (fun d p => dictInsert d p.2 p.1) []

/-- The loop body shared by `devectorize_tags` and `devectorize`:
`max_value = max(vector); index = list(vector).index(max_value);
tags.append(to_tag[index])` (a `KeyError` when the index is not a key of the
inverted dict). -/
def devectorizeOne (to_tag : PyDict Nat String) (vector : List Int) :
    Except PyError String :=
  match pyMax vector with
  | Except.error e => Except.error e
  | Except.ok max_value =>
    match dictGet? to_tag (pyListIndex vector max_value) with
    | some tag => Except.ok tag
    | none => Except.error PyError.keyError

/-- `BiLstmCrfLearner.devectorize_tags` (bilstm_crf.py lines 44-53): invert
the tag dict, then run the loop body over every score vector. -/
def BiLstmCrfLearner.devectorize_tags
    (tags_vectors : List (List Int)) (tag_to_index : PyDict String Nat) :
    Except PyError (List String) :=
  let to_tag := invertIndex tag_to_index
  tags_vectors.mapM (devectorizeOne to_tag)

/-- `PytorchModel.devectorize` (pytorch_model.py lines 52-61); its body is
identical to `BiLstmCrfLearner.devectorize_tags`. -/
def PytorchModel.devectorize
    (vectors : List (List Int)) (to_index : PyDict String Nat) :
    Except PyError (List String) :=
  let to_tag := invertIndex to_index
  vectors.mapM (devectorizeOne to_tag)

/-- A one-hot row of length `k` with the `1` at position `i`; the arg-max
encoding used to state the vectorize/devectorize round trip (C7). -/
def oneHot (k i : Nat) : List Int :=
  (List.range k).map (fun m => if m = i then 1 else 0)

/-- `j` is the position of the maximum of `v` with ties broken by the lowest
index: `v` holds `x` at `j`, no element exceeds `x`, and every element before
`j` is strictly below `x`. -/
abbrev IsFirstMax (v : List Int) (j : Nat) (x : Int) : Prop :=
  v[j]? = some x ∧ (∀ y ∈ v, y ≤ x) ∧ ∀ y ∈ v.take j, y < x

/-- The inner pairing loop of `PytorchModel.get_training_data`
(pytorch_model.py lines 89-94) for one `(document, tags)` pair:
`sentences = get_segments(document); tag_segments = get_segments(tags);
for i in range(len(sentences)): append((sentences[i], tag_segments[i]))`.
Indexing `tag_segments[i]` past the end raises `IndexError`. -/
def pairDocument (document tags : List String) :
    Except PyError (List (List String × List String)) :=
  let sentences := PytorchModel.get_segments document
  let tag_segments := PytorchModel.get_segments tags
  (List.range sentences.length).mapM (fun i =>
    match sentences[i]?, tag_segments[i]? with
    | some s, some t => Except.ok (s, t)
    | _, _ => Except.error PyError.indexError)

/-- The full preprocessing loop of `PytorchModel.get_training_data`
(pytorch_model.py lines 87-94) over every training pair. -/
def preprocessData (training_data : List (List String × List String)) :
    Except PyError (List (List String × List String)) :=
  training_data.foldlM
    (fun acc p => (pairDocument p.1 p.2).map (fun pairs => acc ++ pairs)) []

/-- The trained network's forward computation, `List token-index → per-token
score rows`.  The LSTM itself is floating-point tensor arithmetic and is kept
opaque; no claim depends on the scores it produces. -/
def NetworkF : Type := List Nat → List (List Int)

/-- A network value used only to instantiate opaque-network arguments in
concrete witnesses. -/
def trivialNet : NetworkF := fun _ => []

/-- The mutable attributes of a `BiLstmCrfLearner` instance
(bilstm_crf.py lines 36-39). -/
structure BiLstmCrfLearnerState where
  model : Option NetworkF
  token_to_index : PyDict String Nat
  tag_to_index : PyDict String Nat

/-- A freshly constructed `BiLstmCrfLearner` (class attributes
`model = None`, `token_to_index = {}`, `tag_to_index = {}`). -/
def BiLstmCrfLearner.initial : BiLstmCrfLearnerState :=
  { model := none, token_to_index := [], tag_to_index := [] }

/-- `BiLstmCrfLearner.fit` (bilstm_crf.py lines 75-108): rebuilds both index
dicts, trains a fresh network over the data (the numeric training itself is
opaque; `net` stands for the resulting trained network) and installs it as
`self.model`.  No input validation is performed and nothing is raised. -/
def BiLstmCrfLearner.fit (self : BiLstmCrfLearnerState)
    (x_data y_data : List (List String)) (net : NetworkF) : BiLstmCrfLearnerState :=
  let token_to_index := BiLstmCrfLearner.create_index_dictionary x_data
  let tag_to_index := BiLstmCrfLearner.create_index_dictionary y_data
  { self with
    model := some net
    token_to_index := token_to_index
    tag_to_index := tag_to_index }

/-- `BiLstmCrfLearner.predict` (bilstm_crf.py lines 110-123): raises
`RuntimeError` when `self.token_to_index` is empty (`if not
self.token_to_index`); otherwise vectorizes each sequence, applies
`self.model` (calling a `None` model would be a `TypeError`) and devectorizes
the scores.  The draw stream `rng` feeds any out-of-vocabulary substitution. -/
def BiLstmCrfLearner.predict (self : BiLstmCrfLearnerState)
    (sequences : List (List String)) (rng : List Nat) :
    Except PyError (List (List String)) :=
  if self.token_to_index = [] then Except.error PyError.runtimeError
  else
    match self.model with
    | none => Except.error PyError.typeError
    | some net =>
      sequences.mapM (fun sequence =>
        BiLstmCrfLearner.devectorize_tags
          (net (BiLstmCrfLearner.vectorize sequence self.token_to_index rng))
          self.tag_to_index)

/-- The data a medaCy `Dataset` supplies to `get_training_data`:
`dataset.get_labels()` (a set, modelled as its iteration order) and
`dataset.get_training_data('pytorch')`. -/
structure DatasetData where
  labels : List String
  training_data : List (List String × List String)

/-- The argument actually passed to `PytorchModel.fit` / `predict`:
a `Dataset`, a raw string, or a value of any other type. -/
inductive PredictArg
  | dataset (d : DatasetData)
  | str (s : String)
  | other

/-- The mutable attributes of a `PytorchModel` instance
(pytorch_model.py lines 36-41). -/
structure PytorchModelState where
  model : Option NetworkF
  labels : List String
  word_to_index : PyDict String Nat
  tag_to_index : PyDict String Nat

/-- A freshly constructed `PytorchModel` (class attributes `model = None`,
`labels = []`, `word_to_index = {}`, `tag_to_index = {}`). -/
def PytorchModel.initial : PytorchModelState :=
  { model := none, labels := [], word_to_index := [], tag_to_index := [] }

/-- Python `set.add` on the modelled label set: append if absent. -/
def pySetAdd (labels : List String) (x : String) : List String :=
  if x ∈ labels then labels else labels ++ [x]

/-- `PytorchModel.get_training_data` (pytorch_model.py lines 71-100): adds
`'O'` to the label set, builds `word_to_index` by the first-seen fold over the
training sentences and `tag_to_index` from the label set, segments every
`(document, tags)` pair and returns the updated state together with the
preprocessed pairs. -/
def PytorchModel.get_training_data (self : PytorchModelState) (d : DatasetData) :
    Except PyError (PytorchModelState × List (List String × List String)) :=
  let labels := pySetAdd d.labels "O"
  let training_data := d.training_data
  let word_to_index :=
    training_data.foldl (fun acc p => p.1.foldl indexStep acc) []
  let tag_to_index :=
    labels.foldl (fun acc label => dictInsert acc label acc.length) []
  (preprocessData training_data).map (fun preprocessed =>
    ({ self with
        labels := labels
        word_to_index := word_to_index
        tag_to_index := tag_to_index },
     preprocessed))

/-- Python `a / b`: raises `ZeroDivisionError` when `b = 0`.  Only the
error behaviour matters here (the loss values themselves are floats and are
abstracted to their count). -/
def pyDiv (a b : Nat) : Except PyError Nat :=
  if b = 0 then Except.error PyError.zeroDivisionError else Except.ok (a / b)

/-- `PytorchModel.fit` (pytorch_model.py lines 102-203): `TypeError` unless
the argument is a `Dataset`; then preprocess, and for each of `epochs` epochs
collect one loss per training pair and compute
`average_loss = sum(losses) / len(losses)` (a `ZeroDivisionError` when there
are no losses); afterwards the inspection block indexes `training_data[0]`
(an `IndexError` when empty) and finally the trained network (`net`, opaque)
is installed as `self.model`.  Loss values are abstracted to `1`; only their
count reaches the division. -/
def PytorchModel.fit (self : PytorchModelState) (arg : PredictArg)
    (epochs : Nat) (net : NetworkF) : Except PyError PytorchModelState :=
  match arg with
  | PredictArg.str _ => Except.error PyError.typeError
  | PredictArg.other => Except.error PyError.typeError
  | PredictArg.dataset d =>
    match PytorchModel.get_training_data self d with
    | Except.error e => Except.error e
    | Except.ok (self₁, training_data) =>
      match
        (List.range epochs).foldlM (fun _ _ =>
          let losses := training_data.map (fun _ => (1 : Nat))
          (pyDiv losses.sum losses.length).map (fun _ => ())) () with
      | Except.error e => Except.error e
      | Except.ok _ =>
        match training_data[0]? with
        | none => Except.error PyError.indexError
        | some _ => Except.ok { self₁ with model := some net }

/-- `PytorchModel.predict` (pytorch_model.py lines 205-262): `TypeError`
unless the argument is a `Dataset` or a `str`; `ValueError` when no model has
been fit or loaded.  After those checks both branches dereference names that
are undefined in the module (`prediction_directory` in the `Dataset` branch,
`nlp` in both), so a call that passes the checks raises `NameError`. -/
def PytorchModel.predict (self : PytorchModelState) (arg : PredictArg) :
    Except PyError (List (Nat × Nat × String)) :=
  match arg with
  | PredictArg.other => Except.error PyError.typeError
  | _ =>
    match self.model with
    | none => Except.error PyError.valueError
    | some _ => Except.error PyError.nameError

/-- `PytorchModel.load` (pytorch_model.py lines 267-269): deserializes the
blob into a local variable and calls `eval()` on it, but never assigns any
attribute of `self`; the instance state is returned unchanged. -/
def PytorchModel.load (self : PytorchModelState) (blob : NetworkF) :
    PytorchModelState :=
  let model := blob
  let _ := model
  self

/-- The observable events of one training step, in the order the code runs
them (bilstm_crf.py lines 87-106 and pytorch_model.py lines 126-147). -/
inductive TrainEvent
  | zero_grad
  | forward_pass
  | backward
  | opt_step
  deriving DecidableEq

/-- One training step: `optimizer.zero_grad()`, the forward pass,
`loss.backward()`, `optimizer.step()`. -/
def stepEvents : List TrainEvent :=
  [TrainEvent.zero_grad, TrainEvent.forward_pass, TrainEvent.backward, TrainEvent.opt_step]

/-- The event trace of `BiLstmCrfLearner.fit`'s training loop: one step per
training pair, a single pass. -/
def BiLstmCrfLearner.fitTrace (pairs : Nat) : List TrainEvent :=
  (List.replicate pairs stepEvents).flatten

/-- The event trace of `PytorchModel.fit`'s training loop: `epochs` epochs of
one step per training pair. -/
def PytorchModel.fitTrace (epochs pairs : Nat) : List TrainEvent :=
  (List.replicate epochs (List.replicate pairs stepEvents).flatten).flatten

/-- Gradient-accumulation state semantics: `zero_grad` clears the accumulator,
`backward` adds to it (making it carry-over state for any later step),
the forward pass and the optimizer step leave it unchanged. -/
def gradStep (dirty : Bool) (e : TrainEvent) : Bool :=
  match e with
  | TrainEvent.zero_grad => false
  | TrainEvent.backward => true
  | _ => dirty

-- Basic sanity examples (concrete evaluations of the embedded code).
example : BiLstmCrfLearner.create_index_dictionary [["a", "b"], ["b", "c"]] =
    [("a", 0), ("b", 1), ("c", 2)] := by decide
example : (PytorchModel.get_segments (List.range 250)).map List.length = [100, 100, 50] := by
  decide
example : BiLstmCrfLearner.vectorize ["a", "z"] [("a", 0), ("b", 1)] [7] = [0, 7] := by decide
example : BiLstmCrfLearner.devectorize_tags [[5, 0, 0]] [("A", 0), ("B", 1)] =
    Except.ok ["A"] := by rfl
example : pairDocument (List.replicate 2 "t") (List.replicate 3 "g") =
    Except.ok [(List.replicate 2 "t", List.replicate 3 "g")] := by rfl
example : PytorchModel.fit PytorchModel.initial
    (PredictArg.dataset { labels := [], training_data := [] }) 30 trivialNet =
    Except.error PyError.zeroDivisionError := by rfl

/-! ### Segmenter lemmas -/

theorem map_range'_shift {β : Type} (f : Nat → β) (a : Nat) :
    ∀ (n s step : Nat), (List.range' (a + s) n step).map f =
      (List.range' s n step).map (fun i => f (a + i)) := by
  intro n
  induction n with
  | zero => intro s step; rfl
  | succ n ih =>
    intro s step
    rw [List.range'_succ, List.range'_succ]
    simp only [List.map_cons]
    rw [show a + s + step = a + (s + step) by omega, ih (s + step) step]

theorem get_segments_nil {α : Type} : PytorchModel.get_segments ([] : List α) = [] := by
  simp [PytorchModel.get_segments, SEGMENT_SIZE]

theorem get_segments_cons {α : Type} (l : List α) (h : l ≠ []) :
    PytorchModel.get_segments l =
      l.take SEGMENT_SIZE :: PytorchModel.get_segments (l.drop SEGMENT_SIZE) := by
  have hpos : 0 < l.length := List.length_pos.mpr h
  have hseg : SEGMENT_SIZE = 100 := rfl
  unfold PytorchModel.get_segments
  have hcount : (l.length + SEGMENT_SIZE - 1) / SEGMENT_SIZE =
      ((l.drop SEGMENT_SIZE).length + SEGMENT_SIZE - 1) / SEGMENT_SIZE + 1 := by
    rw [List.length_drop, hseg]
    omega
  rw [hcount, List.range'_succ]
  simp only [List.map_cons, List.drop_zero]
  congr 1
  rw [show 0 + SEGMENT_SIZE = SEGMENT_SIZE + 0 by omega,
    map_range'_shift (fun i => (l.drop i).take SEGMENT_SIZE) SEGMENT_SIZE _ 0 SEGMENT_SIZE]
  have hfun : (fun i => (l.drop (SEGMENT_SIZE + i)).take SEGMENT_SIZE) =
      (fun i => ((l.drop SEGMENT_SIZE).drop i).take SEGMENT_SIZE) := by
    funext i
    rw [List.drop_drop]
  rw [hfun]

theorem get_segments_flatten_aux {α : Type} :
    ∀ (n : Nat) (l : List α), l.length ≤ n → (PytorchModel.get_segments l).flatten = l := by
  intro n
  induction n with
  | zero =>
    intro l hle
    have hnil : l = [] := List.eq_nil_of_length_eq_zero (by omega)
    subst hnil
    rw [get_segments_nil]
    rfl
  | succ n ih =>
    intro l hle
    by_cases hl : l = []
    · subst hl
      rw [get_segments_nil]
      rfl
    · have hpos : 0 < l.length := List.length_pos.mpr hl
      have hseg : SEGMENT_SIZE = 100 := rfl
      rw [get_segments_cons l hl, List.flatten_cons,
        ih (l.drop SEGMENT_SIZE) (by rw [List.length_drop]; omega)]
      exact List.take_append_drop _ l

theorem get_segments_flatten {α : Type} (l : List α) :
    (PytorchModel.get_segments l).flatten = l :=
  get_segments_flatten_aux l.length l (Nat.le_refl _)

theorem get_segments_length {α : Type} (l : List α) :
    (PytorchModel.get_segments l).length = (l.length + SEGMENT_SIZE - 1) / SEGMENT_SIZE := by
  unfold PytorchModel.get_segments
  rw [List.length_map, List.length_range']

theorem get_segments_init_length_aux {α : Type} :
    ∀ (n : Nat) (l : List α), l.length ≤ n → ∀ (i : Nat) (s : List α),
      i + 1 < (PytorchModel.get_segments l).length →
      (PytorchModel.get_segments l)[i]? = some s →
      s.length = SEGMENT_SIZE := by
  intro n
  induction n with
  | zero =>
    intro l hle i s hi _
    have hnil : l = [] := List.eq_nil_of_length_eq_zero (by omega)
    subst hnil
    simp [get_segments_nil] at hi
  | succ n ih =>
    intro l hle i s hi hget
    by_cases hl : l = []
    · subst hl
      simp [get_segments_nil] at hi
    · have hpos : 0 < l.length := List.length_pos.mpr hl
      have hseg : SEGMENT_SIZE = 100 := rfl
      rw [get_segments_cons l hl] at hi hget
      cases i with
      | zero =>
        simp only [List.getElem?_cons_zero, Option.some.injEq] at hget
        subst hget
        simp only [List.length_cons] at hi
        have hrest : 0 < (PytorchModel.get_segments (l.drop SEGMENT_SIZE)).length := by omega
        have hdrop : l.drop SEGMENT_SIZE ≠ [] := by
          intro hd
          rw [hd, get_segments_nil] at hrest
          simp at hrest
        have hlong : SEGMENT_SIZE < l.length := by
          have := List.length_pos.mpr hdrop
          rw [List.length_drop] at this
          omega
        rw [List.length_take]
        omega
      | succ i =>
        simp only [List.getElem?_cons_succ] at hget
        simp only [List.length_cons] at hi
        exact ih (l.drop SEGMENT_SIZE) (by rw [List.length_drop]; omega) i s (by omega) hget

theorem get_segments_map_length_eq_aux {α β : Type} :
    ∀ (n : Nat) (l₁ : List α) (l₂ : List β), l₁.length ≤ n → l₁.length = l₂.length →
      (PytorchModel.get_segments l₁).map List.length =
        (PytorchModel.get_segments l₂).map List.length := by
  intro n
  induction n with
  | zero =>
    intro l₁ l₂ hle heq
    have h1 : l₁ = [] := List.eq_nil_of_length_eq_zero (by omega)
    have h2 : l₂ = [] := List.eq_nil_of_length_eq_zero (by omega)
    subst h1; subst h2
    rw [get_segments_nil, get_segments_nil]
    rfl
  | succ n ih =>
    intro l₁ l₂ hle heq
    by_cases hl : l₁ = []
    · have h2 : l₂ = [] := List.eq_nil_of_length_eq_zero (by subst hl; simpa using heq.symm)
      subst hl; subst h2
      rw [get_segments_nil, get_segments_nil]
      rfl
    · have hl2 : l₂ ≠ [] := by
        intro hd
        rw [hd] at heq
        exact hl (List.eq_nil_of_length_eq_zero (by simpa using heq))
      have hpos : 0 < l₁.length := List.length_pos.mpr hl
      have hseg : SEGMENT_SIZE = 100 := rfl
      rw [get_segments_cons l₁ hl, get_segments_cons l₂ hl2]
      simp only [List.map_cons]
      congr 1
      · rw [List.length_take, List.length_take, heq]
      · exact ih (l₁.drop SEGMENT_SIZE) (l₂.drop SEGMENT_SIZE)
          (by rw [List.length_drop]; omega)
          (by rw [List.length_drop, List.length_drop, heq])

theorem get_segments_map_length_eq {α β : Type} (l₁ : List α) (l₂ : List β)
    (heq : l₁.length = l₂.length) :
    (PytorchModel.get_segments l₁).map List.length =
      (PytorchModel.get_segments l₂).map List.length :=
  get_segments_map_length_eq_aux l₁.length l₁ l₂ (Nat.le_refl _) heq

/-- C3: for every sequence, `get_segments` (window `W = SEGMENT_SIZE = 100`)
produces exactly `⌈N/W⌉ = (N + W - 1) / W` contiguous, non-overlapping
sub-sequences in order whose concatenation is the original sequence; every
segment except possibly the last has length exactly `W`; a 250-element input
yields segments of lengths `[100, 100, 50]` and a 100-element input yields a
single segment of length 100 with no trailing empty segment. -/
theorem get_segments_segmentation_contract {α : Type} (source : List α) :
    ((PytorchModel.get_segments source).length =
        (source.length + SEGMENT_SIZE - 1) / SEGMENT_SIZE) ∧
    (PytorchModel.get_segments source).flatten = source ∧
    (∀ (i : Nat) (s : List α), i + 1 < (PytorchModel.get_segments source).length →
        (PytorchModel.get_segments source)[i]? = some s → s.length = SEGMENT_SIZE) ∧
    (PytorchModel.get_segments (List.range 250)).map List.length = [100, 100, 50] ∧
    (PytorchModel.get_segments (List.range 100)).map List.length = [100] := by
  refine ⟨get_segments_length source, get_segments_flatten source, ?_, by decide, by decide⟩
  intro i s hi hget
  exact get_segments_init_length_aux source.length source (Nat.le_refl _) i s hi hget

/-- Witness for C3 at the concrete 250-element input. -/
theorem get_segments_segmentation_contract_witness :
    (PytorchModel.get_segments (List.range 250)).flatten = List.range 250 ∧
    ((List.range 250).take 100).length = SEGMENT_SIZE := by
  constructor
  · exact (get_segments_segmentation_contract (List.range 250)).2.1
  · exact (get_segments_segmentation_contract (List.range 250)).2.2.1 0
      ((List.range 250).take 100) (by decide) (by rfl)

/-! ### Vocabulary indexer lemmas -/

theorem dictContains_nil {α β : Type} [DecidableEq α] (a : α) :
    dictContains ([] : PyDict α β) a = false := rfl

theorem dictContains_append_single {α β : Type} [DecidableEq α]
    (d : PyDict α β) (x : α) (v : β) (a : α) :
    dictContains (d ++ [(x, v)]) a = (dictContains d a || decide (x = a)) := by
  unfold dictContains
  rw [List.any_append]
  simp

theorem indexStep_of_contains {α : Type} [DecidableEq α] (d : PyDict α Nat) (x : α)
    (h : dictContains d x = true) : indexStep d x = d := by
  unfold indexStep
  rw [if_pos h]

theorem indexStep_of_not_contains {α : Type} [DecidableEq α] (d : PyDict α Nat) (x : α)
    (h : ¬ dictContains d x = true) : indexStep d x = d ++ [(x, d.length)] := by
  unfold indexStep dictInsert
  rw [if_neg h, if_neg h]

theorem foldl_indexStep_snd_range {α : Type} [DecidableEq α] :
    ∀ (p : List α) (d : PyDict α Nat), d.map Prod.snd = List.range d.length →
      (p.foldl indexStep d).map Prod.snd = List.range (p.foldl indexStep d).length := by
  intro p
  induction p with
  | nil => intro d h; exact h
  | cons x xs ih =>
    intro d h
    simp only [List.foldl_cons]
    apply ih
    by_cases hc : dictContains d x = true
    · rw [indexStep_of_contains d x hc]; exact h
    · rw [indexStep_of_not_contains d x hc]
      simp [h, List.range_succ]

theorem firstSeen_cons {α : Type} [DecidableEq α] (x : α) (xs : List α) :
    firstSeen (x :: xs) = x :: (firstSeen xs).filter (fun y => decide (y ≠ x)) := rfl

theorem foldl_indexStep_keys {α : Type} [DecidableEq α] :
    ∀ (p : List α) (d : PyDict α Nat),
      (p.foldl indexStep d).map Prod.fst =
        d.map Prod.fst ++ (firstSeen p).filter (fun a => !(dictContains d a)) := by
  intro p
  induction p with
  | nil => intro d; simp [firstSeen]
  | cons x xs ih =>
    intro d
    simp only [List.foldl_cons]
    rw [firstSeen_cons, List.filter_cons]
    by_cases hc : dictContains d x = true
    · rw [indexStep_of_contains d x hc, ih d]
      simp only [hc, Bool.not_true, Bool.false_eq_true, if_false]
      rw [List.filter_filter]
      congr 1
      apply List.filter_congr
      intro a _
      by_cases hax : a = x
      · subst hax; simp [hc]
      · simp [hax]
    · have hx : dictContains d x = false := by
        cases hdc : dictContains d x
        · rfl
        · exact absurd hdc hc
      rw [indexStep_of_not_contains d x hc, ih (d ++ [(x, d.length)])]
      simp only [hx, Bool.not_false, if_true]
      simp only [List.map_append, List.map_cons, List.map_nil]
      rw [List.append_assoc]
      congr 1
      simp only [List.singleton_append]
      congr 1
      rw [List.filter_filter]
      apply List.filter_congr
      intro a _
      rw [dictContains_append_single]
      by_cases hax : a = x
      · subst hax; simp
      · have hxa : x ≠ a := fun h => hax h.symm
        simp [hax, hxa]

theorem firstSeen_nodup {α : Type} [DecidableEq α] (l : List α) : (firstSeen l).Nodup := by
  induction l with
  | nil => exact List.nodup_nil
  | cons x xs ih =>
    unfold firstSeen
    refine List.Nodup.cons ?_ (List.Nodup.filter _ ih)
    intro hmem
    rcases List.mem_filter.mp hmem with ⟨_, hdec⟩
    simp at hdec

theorem mem_firstSeen {α : Type} [DecidableEq α] (a : α) (l : List α) :
    a ∈ firstSeen l ↔ a ∈ l := by
  induction l with
  | nil => simp [firstSeen]
  | cons x xs ih =>
    unfold firstSeen
    by_cases hax : a = x
    · subst hax; simp
    · simp only [List.mem_cons, hax, false_or]
      rw [List.mem_filter]
      simp [hax, ih]

theorem cid_eq_flatten_fold {α : Type} [DecidableEq α] (sequences : List (List α)) :
    BiLstmCrfLearner.create_index_dictionary sequences =
      sequences.flatten.foldl indexStep [] := by
  unfold BiLstmCrfLearner.create_index_dictionary
  rw [List.foldl_flatten]

theorem cid_keys_eq_firstSeen {α : Type} [DecidableEq α] (sequences : List (List α)) :
    (BiLstmCrfLearner.create_index_dictionary sequences).map Prod.fst =
      firstSeen sequences.flatten := by
  rw [cid_eq_flatten_fold, foldl_indexStep_keys]
  simp [dictContains_nil]

/-- C4: `create_index_dictionary` maps each distinct observed item to a unique
non-negative integer, assigned in first-seen order, the assigned indices being
exactly `0..|V|-1` (its value column is `List.range` of its size and its key
column is the duplicate-free first-occurrence list of the flattened input);
it is a pure function, so running it twice on the same input yields an
identical mapping; an empty input yields an empty mapping. -/
theorem create_index_dictionary_contract {α : Type} [DecidableEq α]
    (sequences : List (List α)) :
    ((BiLstmCrfLearner.create_index_dictionary sequences).map Prod.snd =
      List.range (BiLstmCrfLearner.create_index_dictionary sequences).length) ∧
    ((BiLstmCrfLearner.create_index_dictionary sequences).map Prod.fst).Nodup ∧
    ((BiLstmCrfLearner.create_index_dictionary sequences).map Prod.fst =
      firstSeen sequences.flatten) ∧
    (∀ a, a ∈ (BiLstmCrfLearner.create_index_dictionary sequences).map Prod.fst ↔
      a ∈ sequences.flatten) ∧
    (BiLstmCrfLearner.create_index_dictionary sequences =
      BiLstmCrfLearner.create_index_dictionary sequences) ∧
    (BiLstmCrfLearner.create_index_dictionary ([] : List (List α)) = []) := by
  refine ⟨?_, ?_, cid_keys_eq_firstSeen sequences, ?_, rfl, rfl⟩
  · rw [cid_eq_flatten_fold]
    exact foldl_indexStep_snd_range sequences.flatten [] rfl
  · rw [cid_keys_eq_firstSeen]
    exact firstSeen_nodup _
  · intro a
    rw [cid_keys_eq_firstSeen]
    exact mem_firstSeen a _

/-- Witness for C4 at a concrete corpus with a repeated item. -/
theorem create_index_dictionary_contract_witness :
    ((BiLstmCrfLearner.create_index_dictionary [["b", "a", "b"], ["c"]]).map Prod.snd =
      List.range 3) ∧
    "c" ∈ (BiLstmCrfLearner.create_index_dictionary [["b", "a", "b"], ["c"]]).map Prod.fst := by
  constructor
  · have h := (create_index_dictionary_contract [["b", "a", "b"], ["c"]]).1
    have hlen : (BiLstmCrfLearner.create_index_dictionary [["b", "a", "b"], ["c"]]).length = 3 := by
      decide
    rw [hlen] at h
    exact h
  · exact ((create_index_dictionary_contract [["b", "a", "b"], ["c"]]).2.2.2.1 "c").mpr
      (by decide)

/-! ### Vectorize OOV behaviour (C1) and fit failure behaviour (C2) -/

/-- C1: the claim that an out-of-vocabulary item resolves to a single
well-defined fallback index independent of any random draw is false for the
code: `BiLstmCrfLearner.vectorize` substitutes the next `random.randrange`
draw for an OOV item, so the same call with different draws returns different
index sequences, and `PytorchModel.vectorize` raises `KeyError` instead of
producing any fallback index.  Evaluated at the vocabulary
`{"a": 0, "b": 1}` and the OOV sequence `["c"]` with draws `0` and `1`. -/
theorem oov_vectorize_depends_on_random_draw :
    BiLstmCrfLearner.vectorize ["c"] [("a", 0), ("b", 1)] [0] ≠
      BiLstmCrfLearner.vectorize ["c"] [("a", 0), ("b", 1)] [1] ∧
    PytorchModel.vectorize ["c"] [("a", 0), ("b", 1)] =
      Except.error PyError.keyError := by
  exact ⟨by decide, by rfl⟩

/-- C2: the claim that fitting with an empty training set is a reported
configuration error is false for the code: `PytorchModel.fit` on a `Dataset`
with no training pairs reaches `sum(losses) / len(losses)` with `len = 0` and
dies with `ZeroDivisionError`; the wrong-argument-type half does hold
(`TypeError`); and `BiLstmCrfLearner.fit` on an empty training set raises
nothing at all and still installs a (degenerate) model. -/
theorem fit_empty_training_set_behaviour :
    PytorchModel.fit PytorchModel.initial
      (PredictArg.dataset { labels := [], training_data := [] }) 30 trivialNet =
      Except.error PyError.zeroDivisionError ∧
    PytorchModel.fit PytorchModel.initial PredictArg.other 30 trivialNet =
      Except.error PyError.typeError ∧
    (BiLstmCrfLearner.fit BiLstmCrfLearner.initial [] [] trivialNet).model.isSome = true := by
  exact ⟨by rfl, by rfl, by rfl⟩

/-! ### Predict precondition errors (C8, C10) -/

theorem predict_no_model_valueError (s : PytorchModelState) (arg : PredictArg)
    (hm : s.model = none) (ha : arg ≠ PredictArg.other) :
    PytorchModel.predict s arg = Except.error PyError.valueError := by
  match arg with
  | PredictArg.dataset d =>
    unfold PytorchModel.predict
    rw [hm]
  | PredictArg.str t =>
    unfold PytorchModel.predict
    rw [hm]
  | PredictArg.other => exact absurd rfl ha

/-- C8: predicting before a model has been fit or loaded raises a reported
precondition failure (`RuntimeError` from `BiLstmCrfLearner.predict` when
`token_to_index` is empty, `ValueError` from `PytorchModel.predict` when
`self.model is None`), and predicting with an input type outside the accepted
set raises `TypeError`; in every case an error is returned and no predictions
are produced. -/
theorem predict_error_conditions :
    (∀ (s : BiLstmCrfLearnerState) (seqs : List (List String)) (rng : List Nat),
      s.token_to_index = [] →
      BiLstmCrfLearner.predict s seqs rng = Except.error PyError.runtimeError) ∧
    (∀ (s : PytorchModelState),
      PytorchModel.predict s PredictArg.other = Except.error PyError.typeError) ∧
    (∀ (s : PytorchModelState) (d : DatasetData), s.model = none →
      PytorchModel.predict s (PredictArg.dataset d) = Except.error PyError.valueError) ∧
    (∀ (s : PytorchModelState) (t : String), s.model = none →
      PytorchModel.predict s (PredictArg.str t) = Except.error PyError.valueError) := by
  refine ⟨?_, ?_, ?_, ?_⟩
  · intro s seqs rng h
    unfold BiLstmCrfLearner.predict
    rw [if_pos h]
  · intro s; rfl
  · intro s d h
    exact predict_no_model_valueError s (PredictArg.dataset d) h (by intro hc; cases hc)
  · intro s t h
    exact predict_no_model_valueError s (PredictArg.str t) h (by intro hc; cases hc)

/-- Witness for C8 at a fresh learner and a fresh model. -/
theorem predict_error_conditions_witness :
    BiLstmCrfLearner.predict BiLstmCrfLearner.initial [["x"]] [] =
      Except.error PyError.runtimeError ∧
    PytorchModel.predict PytorchModel.initial (PredictArg.str "text") =
      Except.error PyError.valueError := by
  constructor
  · exact predict_error_conditions.1 BiLstmCrfLearner.initial [["x"]] [] rfl
  · exact predict_error_conditions.2.2.2 PytorchModel.initial "text" rfl

/-- C10: `PytorchModel.load` deserializes into a local variable only and never
assigns `self.model`, so the state is unchanged and `predict` after `load` on
a fresh instance still raises the missing-model `ValueError`, exactly as if
`load` had never been called. -/
theorem load_leaves_model_uninstalled (s : PytorchModelState) (blob : NetworkF)
    (d : DatasetData) (t : String) (h : s.model = none) :
    PytorchModel.load s blob = s ∧
    PytorchModel.predict (PytorchModel.load s blob) (PredictArg.dataset d) =
      Except.error PyError.valueError ∧
    PytorchModel.predict (PytorchModel.load s blob) (PredictArg.str t) =
      Except.error PyError.valueError := by
  refine ⟨rfl, ?_, ?_⟩
  · exact predict_no_model_valueError _ _ h (by intro hc; cases hc)
  · exact predict_no_model_valueError _ _ h (by intro hc; cases hc)

/-- Witness for C10 at a fresh instance and a concrete blob. -/
theorem load_leaves_model_uninstalled_witness :
    PytorchModel.load PytorchModel.initial trivialNet = PytorchModel.initial ∧
    PytorchModel.predict (PytorchModel.load PytorchModel.initial trivialNet)
      (PredictArg.str "t") = Except.error PyError.valueError := by
  have h := load_leaves_model_uninstalled PytorchModel.initial trivialNet
    { labels := [], training_data := [] } "t" rfl
  exact ⟨h.1, h.2.2⟩

/-! ### Gradient reset discipline (C9) -/

theorem stepEvents_forward_clean :
    ∀ (m : Nat) (b : Bool) (pre post : List TrainEvent),
      (List.replicate m stepEvents).flatten = pre ++ TrainEvent.forward_pass :: post →
      List.foldl gradStep b pre = false := by
  intro m
  induction m with
  | zero =>
    intro b pre post h
    simp at h
  | succ m ih =>
    intro b pre post h
    rw [List.replicate_succ, List.flatten_cons] at h
    rcases pre with _ | ⟨e1, _ | ⟨e2, _ | ⟨e3, _ | ⟨e4, pre4⟩⟩⟩⟩
    · simp [stepEvents] at h
    · simp only [stepEvents, List.cons_append, List.nil_append, List.cons.injEq] at h
      obtain ⟨he1, -⟩ := h
      subst he1
      rfl
    · simp [stepEvents] at h
    · simp [stepEvents] at h
    · simp only [stepEvents, List.cons_append, List.nil_append, List.cons.injEq] at h
      obtain ⟨he1, he2, he3, he4, hrest⟩ := h
      subst he1; subst he2; subst he3; subst he4
      simp only [List.foldl_cons]
      exact ih true pre4 post hrest

theorem replicate_flatten_mul {α : Type} (x : List α) :
    ∀ (a b : Nat), (List.replicate a (List.replicate b x).flatten).flatten =
      (List.replicate (a * b) x).flatten := by
  intro a
  induction a with
  | zero => intro b; simp
  | succ a ih =>
    intro b
    rw [List.replicate_succ, List.flatten_cons, ih b,
      show (a + 1) * b = b + a * b by ring, List.replicate_add, List.flatten_append]

/-- C9: in both training loops, viewed as traces over gradient-accumulation
state, every forward pass happens in a state whose accumulated gradients have
been reset since any earlier step: whatever the incoming dirty state `b`, the
state folded over any prefix ending right before a `forward_pass` event is
clean (`false`). -/
theorem grad_reset_before_every_forward_pass :
    (∀ (pairs : Nat) (b : Bool) (pre post : List TrainEvent),
      BiLstmCrfLearner.fitTrace pairs = pre ++ TrainEvent.forward_pass :: post →
      List.foldl gradStep b pre = false) ∧
    (∀ (epochs pairs : Nat) (b : Bool) (pre post : List TrainEvent),
      PytorchModel.fitTrace epochs pairs = pre ++ TrainEvent.forward_pass :: post →
      List.foldl gradStep b pre = false) := by
  constructor
  · intro pairs b pre post h
    exact stepEvents_forward_clean pairs b pre post h
  · intro epochs pairs b pre post h
    unfold PytorchModel.fitTrace at h
    rw [replicate_flatten_mul stepEvents epochs pairs] at h
    exact stepEvents_forward_clean (epochs * pairs) b pre post h

/-- Witness for C9 on the one-pair, one-epoch trace. -/
theorem grad_reset_before_every_forward_pass_witness :
    List.foldl gradStep true [TrainEvent.zero_grad] = false :=
  grad_reset_before_every_forward_pass.1 1 true [TrainEvent.zero_grad]
    [TrainEvent.backward, TrainEvent.opt_step] (by decide)

/-! ### Segment pairing (C5) -/

theorem mapM_except_ok_of_forall {α β : Type} (f : α → Except PyError β) (P : α → β → Prop) :
    ∀ (l : List α), (∀ a ∈ l, ∃ b, f a = Except.ok b ∧ P a b) →
      ∃ bs, l.mapM f = Except.ok bs ∧ bs.length = l.length ∧
        (∀ b ∈ bs, ∃ a, a ∈ l ∧ f a = Except.ok b ∧ P a b) ∧
        (∀ (i : Nat) (hi : i < l.length) (hb : i < bs.length),
          P (l.get ⟨i, hi⟩) (bs.get ⟨i, hb⟩)) := by
  intro l
  induction l with
  | nil =>
    intro _
    refine ⟨[], by rfl, rfl, by simp, ?_⟩
    intro i hi hb
    exact absurd hi (Nat.not_lt_zero i)
  | cons a l ih =>
    intro h
    obtain ⟨b, hfb, hPb⟩ := h a (List.mem_cons_self a l)
    obtain ⟨bs, hbs, hlen, hmem, hidx⟩ := ih (fun x hx => h x (List.mem_cons_of_mem a hx))
    refine ⟨b :: bs, ?_, by simp [hlen], ?_, ?_⟩
    · rw [List.mapM_cons, hfb, hbs]
      rfl
    · intro c hc
      rcases List.mem_cons.mp hc with hc | hc
      · subst hc
        exact ⟨a, List.mem_cons_self a l, hfb, hPb⟩
      · obtain ⟨x, hx, hfx, hPx⟩ := hmem c hc
        exact ⟨x, List.mem_cons_of_mem a hx, hfx, hPx⟩
    · intro i hi hb
      cases i with
      | zero => exact hPb
      | succ i => exact hidx i (Nat.lt_of_succ_lt_succ hi) (Nat.lt_of_succ_lt_succ hb)

/-- C5 (amended): when the token sequence and the tag sequence have equal
total length, `get_training_data`'s pairing loop succeeds and every produced
pair has token segment and tag segment of equal length (the code performs no
explicit length check; see the counterexample for mismatched inputs). -/
theorem pairDocument_aligned_of_length_eq (document tags : List String)
    (h : document.length = tags.length) :
    ∃ pairs, pairDocument document tags = Except.ok pairs ∧
      pairs.length = (PytorchModel.get_segments document).length ∧
      ∀ p ∈ pairs, p.1.length = p.2.length := by
  have hml := get_segments_map_length_eq document tags h
  have hcount : (PytorchModel.get_segments document).length =
      (PytorchModel.get_segments tags).length := by
    have hc := congrArg List.length hml
    simpa using hc
  have hall : ∀ i ∈ List.range (PytorchModel.get_segments document).length,
      ∃ b, (match (PytorchModel.get_segments document)[i]?,
            (PytorchModel.get_segments tags)[i]? with
        | some s, some t => Except.ok (s, t)
        | _, _ => Except.error PyError.indexError) = Except.ok b ∧
        b.1.length = b.2.length := by
    intro i hi
    have hin : i < (PytorchModel.get_segments document).length := List.mem_range.mp hi
    have hit : i < (PytorchModel.get_segments tags).length := hcount ▸ hin
    have hs := List.getElem?_eq_getElem hin
    have ht := List.getElem?_eq_getElem hit
    refine ⟨((PytorchModel.get_segments document)[i],
      (PytorchModel.get_segments tags)[i]), ?_, ?_⟩
    · simp only [hs, ht]
    · have hq := congrArg (fun L => L[i]?) hml
      simp only [List.getElem?_map, hs, ht, Option.map_some'] at hq
      simpa using hq
  obtain ⟨bs, hbs, hlen, hmem, -⟩ :=
    mapM_except_ok_of_forall
      (fun i =>
        match (PytorchModel.get_segments document)[i]?,
            (PytorchModel.get_segments tags)[i]? with
        | some s, some t => Except.ok (s, t)
        | _, _ => Except.error PyError.indexError)
      (fun _ p => p.1.length = p.2.length)
      (List.range (PytorchModel.get_segments document).length)
      hall
  refine ⟨bs, hbs, by rw [hlen, List.length_range], ?_⟩
  intro p hp
  obtain ⟨-, -, -, hPp⟩ := hmem p hp
  exact hPp

/-- C5 counterexample: a pair whose two sequences differ in total length
(50 tokens vs 60 tags) is not rejected: segmentation pairs them into a single
misaligned pair with no error raised. -/
theorem pairDocument_mismatch_not_rejected :
    pairDocument (List.replicate 50 "t") (List.replicate 60 "g") =
      Except.ok [(List.replicate 50 "t", List.replicate 60 "g")] ∧
    (List.replicate 50 "t").length ≠ (List.replicate 60 "g").length := by
  exact ⟨by rfl, by decide⟩

/-- Witness for C5 (amended) at a 150-token document with 150 tags. -/
theorem pairDocument_aligned_of_length_eq_witness :
    ((List.replicate 150 "t").length = (List.replicate 150 "g").length) ∧
    (pairDocument (List.replicate 150 "t") (List.replicate 150 "g")).isOk = true := by
  refine ⟨by decide, ?_⟩
  obtain ⟨pairs, h1, -, -⟩ := pairDocument_aligned_of_length_eq
    (List.replicate 150 "t") (List.replicate 150 "g") (by decide)
  rw [h1]
  rfl

/-! ### Devectorize lemmas (C6, C7) -/

theorem foldl_max_mem (xs : List Int) : ∀ (a : Int), xs.foldl max a ∈ a :: xs := by
  induction xs with
  | nil => intro a; simp
  | cons b bs ih =>
    intro a
    simp only [List.foldl_cons]
    rcases List.mem_cons.mp (ih (max a b)) with h | h
    · rcases max_choice a b with hm | hm
      · rw [h, hm]; exact List.mem_cons_self _ _
      · rw [h, hm]; exact List.mem_cons_of_mem _ (List.mem_cons_self _ _)
    · exact List.mem_cons_of_mem _ (List.mem_cons_of_mem _ h)

theorem le_foldl_max (xs : List Int) : ∀ (a y : Int), y ∈ a :: xs → y ≤ xs.foldl max a := by
  induction xs with
  | nil =>
    intro a y hy
    simp only [List.mem_singleton] at hy
    simp [hy]
  | cons b bs ih =>
    intro a y hy
    simp only [List.foldl_cons]
    rcases List.mem_cons.mp hy with rfl | hy
    · exact le_trans (le_max_left y b) (ih (max y b) _ (List.mem_cons_self _ _))
    · rcases List.mem_cons.mp hy with rfl | hy
      · exact le_trans (le_max_right a y) (ih (max a y) _ (List.mem_cons_self _ _))
      · exact ih (max a b) y (List.mem_cons_of_mem _ hy)

theorem pyListIndex_cons (x : Int) (xs : List Int) (v : Int) :
    pyListIndex (x :: xs) v = if x = v then 0 else pyListIndex xs v + 1 := rfl

theorem pyListIndex_spec : ∀ (l : List Int) (v : Int), v ∈ l →
    l[pyListIndex l v]? = some v ∧ ∀ y ∈ l.take (pyListIndex l v), y ≠ v := by
  intro l
  induction l with
  | nil => intro v hv; simp at hv
  | cons x xs ih =>
    intro v hv
    by_cases hx : x = v
    · refine ⟨?_, ?_⟩
      · rw [pyListIndex_cons, if_pos hx, List.getElem?_cons_zero, hx]
      · rw [pyListIndex_cons, if_pos hx]
        intro y hy
        simp at hy
    · have hvxs : v ∈ xs := by
        rcases List.mem_cons.mp hv with h | h
        · exact absurd h.symm hx
        · exact h
      obtain ⟨h1, h2⟩ := ih v hvxs
      refine ⟨?_, ?_⟩
      · rw [pyListIndex_cons, if_neg hx, List.getElem?_cons_succ]
        exact h1
      · rw [pyListIndex_cons, if_neg hx, List.take_succ_cons]
        intro y hy
        rcases List.mem_cons.mp hy with rfl | hy
        · exact hx
        · exact h2 y hy

theorem pyListIndex_eq_of : ∀ (l : List Int) (i : Nat) (x : Int),
    l[i]? = some x → (∀ y ∈ l.take i, y ≠ x) → pyListIndex l x = i := by
  intro l
  induction l with
  | nil => intro i x h _; simp at h
  | cons a as ih =>
    intro i x h1 h2
    cases i with
    | zero =>
      rw [List.getElem?_cons_zero, Option.some.injEq] at h1
      rw [pyListIndex_cons, if_pos h1]
    | succ i =>
      rw [List.getElem?_cons_succ] at h1
      rw [List.take_succ_cons] at h2
      have ha : a ≠ x := h2 a (List.mem_cons_self _ _)
      rw [pyListIndex_cons, if_neg ha, ih i x h1 (fun y hy => h2 y (List.mem_cons_of_mem _ hy))]

theorem mem_take_of_getElem? {α : Type} : ∀ (l : List α) (j k : Nat) (x : α),
    l[j]? = some x → j < k → x ∈ l.take k := by
  intro l
  induction l with
  | nil => intro j k x h _; simp at h
  | cons a as ih =>
    intro j k x h hjk
    cases j with
    | zero =>
      rw [List.getElem?_cons_zero, Option.some.injEq] at h
      cases k with
      | zero => omega
      | succ k =>
        rw [List.take_succ_cons, h]
        exact List.mem_cons_self _ _
    | succ j =>
      rw [List.getElem?_cons_succ] at h
      cases k with
      | zero => omega
      | succ k =>
        rw [List.take_succ_cons]
        exact List.mem_cons_of_mem _ (ih j k x h (by omega))

theorem isFirstMax_unique (v : List Int) (j j' : Nat) (x x' : Int)
    (h : IsFirstMax v j x) (h' : IsFirstMax v j' x') : j = j' ∧ x = x' := by
  obtain ⟨hj, hle, hlt⟩ := h
  obtain ⟨hj', hle', hlt'⟩ := h'
  have hxx : x = x' :=
    le_antisymm (hle' x (List.getElem?_mem hj)) (hle x' (List.getElem?_mem hj'))
  subst hxx
  rcases Nat.lt_trichotomy j j' with hlt2 | heq | hlt2
  · exact absurd (hlt' x (mem_take_of_getElem? v j j' x hj hlt2)) (lt_irrefl x)
  · exact ⟨heq, rfl⟩
  · exact absurd (hlt x (mem_take_of_getElem? v j' j x hj' hlt2)) (lt_irrefl x)

theorem pyMax_isFirstMax (a : Int) (xs : List Int) :
    IsFirstMax (a :: xs) (pyListIndex (a :: xs) (xs.foldl max a)) (xs.foldl max a) := by
  have hmem : xs.foldl max a ∈ a :: xs := foldl_max_mem xs a
  have hle : ∀ y ∈ a :: xs, y ≤ xs.foldl max a := fun y hy => le_foldl_max xs a y hy
  obtain ⟨h1, h2⟩ := pyListIndex_spec (a :: xs) (xs.foldl max a) hmem
  refine ⟨h1, hle, ?_⟩
  intro y hy
  exact lt_of_le_of_ne (hle y (List.mem_of_mem_take hy)) (h2 y hy)

theorem dictGet?_eq_some_iff {α β : Type} [DecidableEq α] :
    ∀ (d : PyDict α β), (d.map Prod.fst).Nodup → ∀ (k : α) (v : β),
      (dictGet? d k = some v ↔ (k, v) ∈ d) := by
  intro d
  induction d with
  | nil => intro _ k v; simp [dictGet?]
  | cons p ps ih =>
    intro h k v
    rw [List.map_cons, List.nodup_cons] at h
    obtain ⟨hp, hps⟩ := h
    by_cases hk : p.1 = k
    · unfold dictGet?
      rw [List.find?_cons_of_pos _ (by simpa using hk)]
      simp only [Option.map_some', Option.some.injEq]
      constructor
      · intro hv
        refine List.mem_cons.mpr (Or.inl ?_)
        rw [Prod.ext_iff]
        exact ⟨hk.symm, hv.symm⟩
      · intro hmem
        rcases List.mem_cons.mp hmem with heq | hmem
        · rw [← heq]
        · exfalso
          apply hp
          rw [hk]
          exact List.mem_map.mpr ⟨(k, v), hmem, rfl⟩
    · unfold dictGet?
      rw [List.find?_cons_of_neg _ (by simpa using hk)]
      have hrec := ih hps k v
      unfold dictGet? at hrec
      rw [hrec]
      constructor
      · intro hmem
        exact List.mem_cons_of_mem _ hmem
      · intro hmem
        rcases List.mem_cons.mp hmem with heq | hmem
        · exfalso
          apply hk
          rw [← heq]
        · exact hmem

theorem foldl_dictInsert_swap {α : Type} [DecidableEq α] :
    ∀ (l : List (α × Nat)) (d : PyDict Nat α),
      (l.map Prod.snd).Nodup →
      (∀ p ∈ l, dictContains d p.2 = false) →
      l.foldl (fun acc p => dictInsert acc p.2 p.1) d =
        d ++ l.map (fun p => (p.2, p.1)) := by
  intro l
  induction l with
  | nil => intro d _ _; simp
  | cons p ps ih =>
    intro d hnodup hdisj
    rw [List.map_cons] at hnodup
    obtain ⟨hp2, hps⟩ := List.nodup_cons.mp hnodup
    simp only [List.foldl_cons]
    have hcp : dictContains d p.2 = false := hdisj p (List.mem_cons_self _ _)
    have hins : dictInsert d p.2 p.1 = d ++ [(p.2, p.1)] := by
      unfold dictInsert
      rw [if_neg (by simp [hcp])]
    have hdisj2 : ∀ q ∈ ps, dictContains (d ++ [(p.2, p.1)]) q.2 = false := by
      intro q hq
      rw [dictContains_append_single]
      have h1 : dictContains d q.2 = false := hdisj q (List.mem_cons_of_mem _ hq)
      have h2 : ¬ (p.2 = q.2) := by
        intro hc
        exact hp2 (hc ▸ List.mem_map.mpr ⟨q, hq, rfl⟩)
      simp [h1, h2]
    rw [hins, ih (d ++ [(p.2, p.1)]) hps hdisj2]
    simp

theorem invertIndex_eq_swap {α : Type} [DecidableEq α] (to_index : PyDict α Nat)
    (h : (to_index.map Prod.snd).Nodup) :
    invertIndex to_index = to_index.map (fun p => (p.2, p.1)) := by
  unfold invertIndex
  rw [foldl_dictInsert_swap to_index [] h (fun p _ => rfl)]
  simp

theorem mem_swap_iff {α : Type} [DecidableEq α] (l : PyDict α Nat) (j : Nat) (t : α) :
    (j, t) ∈ l.map (fun p => (p.2, p.1)) ↔ (t, j) ∈ l := by
  rw [List.mem_map]
  constructor
  · rintro ⟨p, hp, heq⟩
    rw [Prod.ext_iff] at heq
    obtain ⟨h2, h1⟩ := heq
    have hpe : p = (t, j) := Prod.ext_iff.mpr ⟨h1, h2⟩
    rw [← hpe]
    exact hp
  · intro hmem
    exact ⟨(t, j), hmem, rfl⟩

theorem dictGet?_invert {α : Type} [DecidableEq α] (to_index : PyDict α Nat)
    (h : (to_index.map Prod.snd).Nodup) (j : Nat) (t : α) :
    dictGet? (invertIndex to_index) j = some t ↔ (t, j) ∈ to_index := by
  rw [invertIndex_eq_swap to_index h]
  have hkeys : ((to_index.map (fun p => (p.2, p.1))).map Prod.fst).Nodup := by
    rw [List.map_map]
    exact h
  rw [dictGet?_eq_some_iff _ hkeys j t]
  exact mem_swap_iff to_index j t

theorem devectorizeOne_ok (to_index : PyDict String Nat)
    (hnodup : (to_index.map Prod.snd).Nodup)
    (v : List Int) (j : Nat) (x : Int) (t : String)
    (hfm : IsFirstMax v j x) (hmem : (t, j) ∈ to_index) :
    devectorizeOne (invertIndex to_index) v = Except.ok t := by
  cases v with
  | nil =>
    obtain ⟨hj, -, -⟩ := hfm
    simp at hj
  | cons a xs =>
    have hM := pyMax_isFirstMax a xs
    obtain ⟨hjeq, -⟩ := isFirstMax_unique (a :: xs) _ j _ x hM hfm
    have hg : dictGet? (invertIndex to_index)
        (pyListIndex (a :: xs) (xs.foldl max a)) = some t := by
      rw [hjeq]
      exact (dictGet?_invert to_index hnodup j t).mpr hmem
    unfold devectorizeOne
    simp only [pyMax]
    rw [hg]

/-- C6 (amended): for every tag-to-index mapping with duplicate-free index
values and every list of score vectors each of which has a first-maximum
position that is an index of the mapping, `devectorize_tags` returns exactly
one tag per vector, namely the tag whose index is the position of the maximum
score with ties broken by the lowest index, mapped back through the inverse of
the mapping; with an empty mapping, a nonempty score vector makes it fail with
`KeyError`.  (A score vector whose length differs from the tag-set size is not
in itself rejected — see the counterexample.) -/
theorem devectorize_tags_argmax (tag_to_index : PyDict String Nat)
    (vectors : List (List Int))
    (hnodup : (tag_to_index.map Prod.snd).Nodup)
    (hok : ∀ v ∈ vectors, ∃ t j x, IsFirstMax v j x ∧ (t, j) ∈ tag_to_index) :
    (∃ tags, BiLstmCrfLearner.devectorize_tags vectors tag_to_index = Except.ok tags ∧
      tags.length = vectors.length ∧
      ∀ (i : Nat) (hi : i < vectors.length) (ht : i < tags.length),
        ∃ j x, IsFirstMax (vectors.get ⟨i, hi⟩) j x ∧
          (tags.get ⟨i, ht⟩, j) ∈ tag_to_index) ∧
    BiLstmCrfLearner.devectorize_tags [[5]] [] = Except.error PyError.keyError := by
  constructor
  · have hall : ∀ v ∈ vectors,
        ∃ t, devectorizeOne (invertIndex tag_to_index) v = Except.ok t ∧
          ∃ j x, IsFirstMax v j x ∧ (t, j) ∈ tag_to_index := by
      intro v hv
      obtain ⟨t, j, x, hfm, hmem⟩ := hok v hv
      exact ⟨t, devectorizeOne_ok tag_to_index hnodup v j x t hfm hmem, j, x, hfm, hmem⟩
    obtain ⟨bs, hbs, hlen, -, hidx⟩ :=
      mapM_except_ok_of_forall (devectorizeOne (invertIndex tag_to_index))
        (fun v t => ∃ j x, IsFirstMax v j x ∧ (t, j) ∈ tag_to_index) vectors hall
    exact ⟨bs, hbs, hlen, hidx⟩
  · rfl

/-- C6 counterexample: `devectorize_tags` does not fail when a score vector's
length (3) differs from the tag-set size (2): it happily returns the tag at
the arg-max position. -/
theorem devectorize_length_mismatch_not_rejected :
    BiLstmCrfLearner.devectorize_tags [[5, 0, 0]] [("A", 0), ("B", 1)] =
      Except.ok ["A"] ∧
    ([5, 0, 0] : List Int).length ≠ ([("A", 0), ("B", 1)] : PyDict String Nat).length := by
  exact ⟨by rfl, by decide⟩

/-- Witness for C6 (amended) at the mapping `{"O": 0, "D": 1}` and the score
vector `[3, 7]`. -/
theorem devectorize_tags_argmax_witness :
    ((([("O", 0), ("D", 1)] : PyDict String Nat).map Prod.snd).Nodup) ∧
    (BiLstmCrfLearner.devectorize_tags [[3, 7]] [("O", 0), ("D", 1)]).isOk = true := by
  have hok : ∀ v ∈ [[(3 : Int), 7]], ∃ t j x, IsFirstMax v j x ∧
      (t, j) ∈ ([("O", 0), ("D", 1)] : PyDict String Nat) := by
    intro v hv
    rw [List.mem_singleton] at hv
    subst hv
    exact ⟨"D", 1, 7, by decide, by decide⟩
  obtain ⟨⟨tags, h1, -, -⟩, -⟩ :=
    devectorize_tags_argmax [("O", 0), ("D", 1)] [[3, 7]] (by decide) hok
  refine ⟨by decide, ?_⟩
  rw [h1]
  rfl

/-! ### Round trip (C7) -/

theorem vectorize_in_vocab {α : Type} [DecidableEq α] :
    ∀ (tags : List α) (d : PyDict α Nat) (rng : List Nat),
      (∀ t ∈ tags, dictContains d t = true) →
      BiLstmCrfLearner.vectorize tags d rng =
        tags.map (fun t => (dictGet? d t).getD 0) := by
  intro tags
  induction tags with
  | nil => intro d rng _; rfl
  | cons t ts ih =>
    intro d rng h
    unfold BiLstmCrfLearner.vectorize
    rw [if_pos (h t (List.mem_cons_self _ _)), List.map_cons]
    congr 1
    exact ih d rng (fun x hx => h x (List.mem_cons_of_mem _ hx))

theorem oneHot_isFirstMax {k i : Nat} (hik : i < k) : IsFirstMax (oneHot k i) i 1 := by
  refine ⟨?_, ?_, ?_⟩
  · unfold oneHot
    rw [List.getElem?_map, List.getElem?_range hik]
    simp
  · intro y hy
    unfold oneHot at hy
    rw [List.mem_map] at hy
    obtain ⟨m, -, hm⟩ := hy
    subst hm
    split <;> omega
  · intro y hy
    unfold oneHot at hy
    rw [← List.map_take, List.take_range] at hy
    rw [List.mem_map] at hy
    obtain ⟨m, hmr, hm⟩ := hy
    have hmi : m < i := by
      rw [List.mem_range] at hmr
      omega
    subst hm
    rw [if_neg (by omega)]
    omega

theorem dictGet?_of_contains {α β : Type} [DecidableEq α] (d : PyDict α β)
    (hfst : (d.map Prod.fst).Nodup) (k : α) (h : dictContains d k = true) :
    ∃ v, dictGet? d k = some v ∧ (k, v) ∈ d := by
  unfold dictContains at h
  rw [List.any_eq_true] at h
  obtain ⟨p, hp, hdec⟩ := h
  rw [decide_eq_true_eq] at hdec
  have hpe : (k, p.2) = p := Prod.ext_iff.mpr ⟨hdec.symm, rfl⟩
  have hmem : (k, p.2) ∈ d := hpe ▸ hp
  exact ⟨p.2, (dictGet?_eq_some_iff d hfst k p.2).mpr hmem, hmem⟩

theorem round_trip_aux (to_index : PyDict String Nat)
    (hsnd : to_index.map Prod.snd = List.range to_index.length)
    (hfst : (to_index.map Prod.fst).Nodup) :
    ∀ (tags : List String), (∀ t ∈ tags, dictContains to_index t = true) →
      ((tags.map (fun t => oneHot to_index.length ((dictGet? to_index t).getD 0))).mapM
        (devectorizeOne (invertIndex to_index))) = Except.ok tags := by
  have hsndnodup : (to_index.map Prod.snd).Nodup := by
    rw [hsnd]
    exact List.nodup_range _
  intro tags
  induction tags with
  | nil => intro _; rfl
  | cons t ts ih =>
    intro h
    obtain ⟨i, hgi, hmem⟩ := dictGet?_of_contains to_index hfst t (h t (List.mem_cons_self _ _))
    have hik : i < to_index.length := by
      have hi2 : i ∈ to_index.map Prod.snd := List.mem_map.mpr ⟨(t, i), hmem, rfl⟩
      rw [hsnd] at hi2
      exact List.mem_range.mp hi2
    rw [List.map_cons, List.mapM_cons]
    have hone : devectorizeOne (invertIndex to_index)
        (oneHot to_index.length ((dictGet? to_index t).getD 0)) = Except.ok t := by
      rw [hgi]
      exact devectorizeOne_ok to_index hsndnodup _ i 1 t (oneHot_isFirstMax hik) hmem
    rw [hone, ih (fun x hx => h x (List.mem_cons_of_mem _ hx))]
    rfl

/-- C7: for every tag sequence whose tags are all present in a built
tag-to-index mapping (duplicate-free keys, index column exactly `0..|V|-1`),
vectorizing it and then devectorizing the per-position one-hot (arg-max)
encoding of the resulting indices reproduces the original tag sequence
exactly, order and length preserved, for every random-draw stream (the OOV
path is never taken for an in-vocabulary sequence). -/
theorem vectorize_devectorize_round_trip (to_index : PyDict String Nat)
    (tags : List String) (rng : List Nat)
    (hsnd : to_index.map Prod.snd = List.range to_index.length)
    (hfst : (to_index.map Prod.fst).Nodup)
    (hmem : ∀ t ∈ tags, dictContains to_index t = true) :
    BiLstmCrfLearner.devectorize_tags
      ((BiLstmCrfLearner.vectorize tags to_index rng).map (oneHot to_index.length))
      to_index = Except.ok tags := by
  rw [vectorize_in_vocab tags to_index rng hmem]
  unfold BiLstmCrfLearner.devectorize_tags
  rw [List.map_map]
  exact round_trip_aux to_index hsnd hfst tags hmem

/-- Witness for C7 at the built mapping `{"O": 0, "D": 1}` and the sequence
`["D", "O", "D"]`. -/
theorem vectorize_devectorize_round_trip_witness :
    BiLstmCrfLearner.devectorize_tags
      ((BiLstmCrfLearner.vectorize ["D", "O", "D"] [("O", 0), ("D", 1)] []).map
        (oneHot 2)) [("O", 0), ("D", 1)] = Except.ok ["D", "O", "D"] :=
  vectorize_devectorize_round_trip [("O", 0), ("D", 1)] ["D", "O", "D"] []
    (by decide) (by decide) (by decide)
